import Mathlib

/-!
Verification of `local-web-search` (src/cli.ts) against its specification.

Strings are modelled as `List Char`; JavaScript `undefined`/`null` as
`Option`; promise settlements as an inductive `Settlement`; thrown
exceptions as `Except`.  Each definition is a shallow embedding of the
correspondingly named function in `src/cli.ts`.
-/

namespace LocalWebSearch

/-! ## stripQuotes (src/cli.ts lines 14-16)

`text.replace(/^"|"$/g, "")` removes one leading `"` (if present) and one
trailing `"` (if present): the `^"` branch can only match at position 0 and
the `"$` branch only at the final position, and the two matches are
disjoint (for a one-character string `"` only the `^"` branch fires). -/

/-- Remove a single leading double quote, if present. -/
def stripLeadingQuote : List Char → List Char
  | [] => []
  | c :: rest => if c = '"' then rest else c :: rest

/-- Remove a single trailing double quote, if present. -/
def stripTrailingQuote (s : List Char) : List Char :=
  (stripLeadingQuote s.reverse).reverse

/-- Embedding of `stripQuotes`: `text.replace(/^"|"$/g, "")`. -/
def stripQuotes (s : List Char) : List Char :=
  stripTrailingQuote (stripLeadingQuote s)

/-- `stripLeadingQuote` splits off a prefix of length at most one made of
double quotes. -/
theorem stripLeadingQuote_decomp (s : List Char) :
    ∃ a, s = a ++ stripLeadingQuote s ∧ a.length ≤ 1 ∧ ∀ c ∈ a, c = '"' := by
  match s with
  | [] => exact ⟨[], rfl, by simp, by simp⟩
  | c :: rest =>
    by_cases h : c = '"'
    · refine ⟨[c], ?_, by simp, by simp [h]⟩
      simp [stripLeadingQuote, h]
    · refine ⟨[], ?_, by simp, by simp⟩
      simp [stripLeadingQuote, h]

/-- If the string does not start with a double quote, `stripLeadingQuote`
is the identity. -/
theorem stripLeadingQuote_eq_self (s : List Char) (h : s.head? ≠ some '"') :
    stripLeadingQuote s = s := by
  match s with
  | [] => rfl
  | c :: rest =>
    simp only [List.head?] at h
    have hc : c ≠ '"' := by intro hc; exact h (by rw [hc])
    simp [stripLeadingQuote, hc]

/-- `stripTrailingQuote` splits off a suffix of length at most one made of
double quotes. -/
theorem stripTrailingQuote_decomp (s : List Char) :
    ∃ b, s = stripTrailingQuote s ++ b ∧ b.length ≤ 1 ∧ ∀ c ∈ b, c = '"' := by
  obtain ⟨a, ha, hlen, hq⟩ := stripLeadingQuote_decomp s.reverse
  refine ⟨a.reverse, ?_, by simpa using hlen, by simpa using hq⟩
  have := congrArg List.reverse ha
  simpa [stripTrailingQuote, List.reverse_append] using this

/-- If the string does not end with a double quote, `stripTrailingQuote`
is the identity. -/
theorem stripTrailingQuote_eq_self (s : List Char) (h : s.reverse.head? ≠ some '"') :
    stripTrailingQuote s = s := by
  unfold stripTrailingQuote
  rw [stripLeadingQuote_eq_self s.reverse h, List.reverse_reverse]

/-- Does the string start with two consecutive double quotes? -/
def startsWithTwoQuotes (s : List Char) : Bool :=
  match s with
  | c1 :: c2 :: _ => c1 = '"' && c2 = '"'
  | _ => false

/-- Does the string end with two consecutive double quotes? -/
def endsWithTwoQuotes (s : List Char) : Bool :=
  startsWithTwoQuotes s.reverse

/-- After stripping one leading quote from a string that does not start
with two quotes, the head is not a quote. -/
theorem head_stripLeadingQuote_ne (s : List Char)
    (h : startsWithTwoQuotes s = false) :
    (stripLeadingQuote s).head? ≠ some '"' := by
  match s with
  | [] => simp [stripLeadingQuote]
  | [c] =>
    by_cases hc : c = '"'
    · simp [stripLeadingQuote, hc]
    · simp [stripLeadingQuote, hc]
  | c1 :: c2 :: rest =>
    by_cases hc1 : c1 = '"'
    · have hc2 : c2 ≠ '"' := by
        intro hc2
        simp [startsWithTwoQuotes, hc1, hc2] at h
      simp [stripLeadingQuote, hc1, hc2]
    · simp [stripLeadingQuote, hc1, hc1]

/-- Stripping a leading quote cannot create a doubled quote at the end. -/
theorem endsWithTwoQuotes_stripLeadingQuote (s : List Char)
    (h : endsWithTwoQuotes s = false) :
    endsWithTwoQuotes (stripLeadingQuote s) = false := by
  match s with
  | [] => simpa [stripLeadingQuote] using h
  | c :: rest =>
    by_cases hc : c = '"'
    · simp only [stripLeadingQuote, hc, if_pos rfl]
      by_contra hcontra
      have hrest : endsWithTwoQuotes rest = true := by
        cases hER : endsWithTwoQuotes rest with
        | true => rfl
        | false => exact absurd hER hcontra
      unfold endsWithTwoQuotes at hrest h
      match hrev : rest.reverse with
      | [] => rw [hrev] at hrest; simp [startsWithTwoQuotes] at hrest
      | [d] => rw [hrev] at hrest; simp [startsWithTwoQuotes] at hrest
      | d1 :: d2 :: w =>
        rw [hrev] at hrest
        simp only [startsWithTwoQuotes, Bool.and_eq_true, decide_eq_true_eq] at hrest
        have hs : ('"' :: rest).reverse = d1 :: d2 :: (w ++ ['"']) := by
          simp [List.reverse_cons, hrev]
        rw [hc] at h
        rw [hs] at h
        simp [startsWithTwoQuotes, hrest.1, hrest.2] at h
    · simpa [stripLeadingQuote, hc] using h

/-- The stripped string does not start with a quote, provided the input
did not start with a doubled quote. -/
theorem stripQuotes_head_ne (s : List Char)
    (h : startsWithTwoQuotes s = false) :
    (stripQuotes s).head? ≠ some '"' := by
  have ht := head_stripLeadingQuote_ne s h
  obtain ⟨b, hb, _, _⟩ := stripTrailingQuote_decomp (stripLeadingQuote s)
  unfold stripQuotes
  match hu : stripTrailingQuote (stripLeadingQuote s) with
  | [] => simp
  | x :: xs =>
    rw [hu] at hb
    rw [hb] at ht
    simpa using ht

/-- The stripped string does not end with a quote, provided the input did
not end with a doubled quote. -/
theorem stripQuotes_reverse_head_ne (s : List Char)
    (h : endsWithTwoQuotes s = false) :
    (stripQuotes s).reverse.head? ≠ some '"' := by
  have ht := endsWithTwoQuotes_stripLeadingQuote s h
  unfold stripQuotes stripTrailingQuote
  rw [List.reverse_reverse]
  exact head_stripLeadingQuote_ne (stripLeadingQuote s).reverse ht

/-- A string that neither starts nor ends with a quote is a fixed point of
`stripQuotes`. -/
theorem stripQuotes_eq_self (t : List Char) (h1 : t.head? ≠ some '"')
    (h2 : t.reverse.head? ≠ some '"') : stripQuotes t = t := by
  unfold stripQuotes
  rw [stripLeadingQuote_eq_self t h1, stripTrailingQuote_eq_self t h2]

/-- C3 counterexample: on `""a` (two leading quotes), a second application
of `stripQuotes` removes one more quote, so stripping is not idempotent as
claimed. -/
theorem stripQuotes_not_idempotent_cex :
    stripQuotes (stripQuotes ['"', '"', 'a']) ≠ stripQuotes ['"', '"', 'a'] := by
  decide

/-- C3 (amended): `stripQuotes` is idempotent on every string that does
not begin with two consecutive double quotes and does not end with two
consecutive double quotes. -/
theorem stripQuotes_idempotent (s : List Char)
    (h1 : startsWithTwoQuotes s = false) (h2 : endsWithTwoQuotes s = false) :
    stripQuotes (stripQuotes s) = stripQuotes s :=
  stripQuotes_eq_self (stripQuotes s) (stripQuotes_head_ne s h1)
    (stripQuotes_reverse_head_ne s h2)

/-- C3 witness: the amended idempotence theorem applied to `"a"`. -/
theorem stripQuotes_idempotent_witness :
    stripQuotes (stripQuotes ['"', 'a', '"']) = stripQuotes ['"', 'a', '"'] :=
  stripQuotes_idempotent ['"', 'a', '"'] (by decide) (by decide)

/-- C10: one application of `stripQuotes` removes at most one double quote
at the start and at most one at the end, and leaves every other character
unchanged: the result is a contiguous substring of the input, and the
removed prefix and suffix each have length at most one and consist only of
double quotes. -/
theorem stripQuotes_substring (s : List Char) :
    ∃ a b, s = a ++ stripQuotes s ++ b ∧ a.length ≤ 1 ∧ b.length ≤ 1 ∧
      (∀ c ∈ a, c = '"') ∧ (∀ c ∈ b, c = '"') := by
  obtain ⟨a, ha, halen, haq⟩ := stripLeadingQuote_decomp s
  obtain ⟨b, hb, hblen, hbq⟩ := stripTrailingQuote_decomp (stripLeadingQuote s)
  refine ⟨a, b, ?_, halen, hblen, haq, hbq⟩
  have hb2 : stripLeadingQuote s = stripQuotes s ++ b := hb
  rw [List.append_assoc, ← hb2]
  exact ha

/-! ## Effective per-query result cap (src/cli.ts lines 70-74 and 122-124)

`main` computes
`maxResults = options.maxResults && Math.max(3, Math.floor(options.maxResults / queries.length))`:
with `options.maxResults` absent (`undefined`) the `&&` yields `undefined`,
and with `options.maxResults = 0` (falsy) the `&&` short-circuits to `0`.
`search` then builds the URL with `num=${options.maxResults || 10}`. -/

/-- Embedding of the `maxResults` computation in `main`: `none` models
`undefined`; a falsy `0` short-circuits the `&&`. -/
def computedMaxResults (maxResults : Option Nat) (numQueries : Nat) : Option Nat :=
  match maxResults with
  | none => none
  | some t => some (if t = 0 then 0 else max 3 (t / numQueries))

/-- Embedding of the `num` URL parameter in `search`:
`options.maxResults || 10` (both `undefined` and `0` are falsy). -/
def searchNum (maxResults : Option Nat) : Nat :=
  match maxResults with
  | none => 10
  | some v => if v = 0 then 10 else v

/-- C1 counterexample: requesting a total cap of `0` with one query makes
the search URL use `num=10`, not `max(3, floor(0/1)) = 3` as the claim
requires for every requested total cap. -/
theorem effective_cap_cex :
    ¬ searchNum (computedMaxResults (some 0) 1) = max 3 (0 / 1) := by
  decide

/-- C1 (amended): for every run with `k ≥ 1` queries and a requested total
cap `T ≥ 1`, the `num` parameter of the search URL equals
`max(3, floor(T/k))`; with no total cap requested it equals 10. -/
theorem effective_cap (T k : Nat) (hT : 1 ≤ T) :
    searchNum (computedMaxResults (some T) k) = max 3 (T / k) ∧
      searchNum (computedMaxResults none k) = 10 := by
  constructor
  · have hT0 : T ≠ 0 := Nat.one_le_iff_ne_zero.mp hT
    have hmax : max 3 (T / k) ≠ 0 := by
      intro hcontra
      have h3 : 3 ≤ max 3 (T / k) := le_max_left _ _
      omega
    simp [computedMaxResults, searchNum, hT0, hmax]
  · rfl

/-- C1 witness: a single query with total cap 6 yields `num = 6`
(spec end-to-end example), and no requested cap yields `num = 10`. -/
theorem effective_cap_witness :
    searchNum (computedMaxResults (some 6) 1) = max 3 (6 / 1) ∧
      searchNum (computedMaxResults none 1) = 10 :=
  effective_cap 6 1 (by decide)

/-! ## Exit semantics (src/cli.ts lines 62-64, 75, 97-110)

The `search` command's action first throws `missing query` when
`options.query` is falsy (before any browser call), and `launchBrowser`
throwing aborts the action; `main` catches every error from
`runMatchedCommand` and sets `process.exitCode = 1`. -/

/-- The raw `--query` option: absent, a single string, or a list
(repeated flags). -/
inductive QueryOpt
  | missing
  | one (s : List Char)
  | many (ss : List (List Char))
deriving DecidableEq

/-- JavaScript truthiness of `options.query`: `undefined` and `""` are
falsy; a non-empty string and any array are truthy. -/
def queryTruthy : QueryOpt → Bool
  | .missing => false
  | .one s => !s.isEmpty
  | .many _ => true

/-- Errors that abort the run. -/
inductive RunError
  | missingQuery
  | launchFail
deriving DecidableEq

/-- Embedding of the `search` command action up to browser launch: the
result of the action together with a flag recording whether browser work
(the launch) was started. -/
def searchAction (q : QueryOpt) (launchOk : Bool) : Except RunError Unit × Bool :=
  if !queryTruthy q then (.error .missingQuery, false)
  else if !launchOk then (.error .launchFail, true)
  else (.ok (), true)

/-- Embedding of `main`'s try/catch: a thrown error sets
`process.exitCode = 1`, otherwise the process exits 0. -/
def mainExitCode (q : QueryOpt) (launchOk : Bool) : Nat :=
  match (searchAction q launchOk).1 with
  | .ok _ => 0
  | .error _ => 1

/-- C9: a falsy (missing or empty) query makes the run exit non-zero with
no browser work started, and a browser-launch failure makes the run exit
non-zero. -/
theorem exit_semantics (q : QueryOpt) (launchOk : Bool) :
    (queryTruthy q = false →
      mainExitCode q launchOk ≠ 0 ∧ (searchAction q launchOk).2 = false) ∧
      (launchOk = false → mainExitCode q launchOk ≠ 0) := by
  constructor
  · intro hq
    simp [mainExitCode, searchAction, hq]
  · intro hl
    cases hq : queryTruthy q <;> simp [mainExitCode, searchAction, hq, hl]

/-- C9 witness: the exit-semantics theorem applied to a missing query and
to a launch failure with query `a`. -/
theorem exit_semantics_witness :
    (mainExitCode QueryOpt.missing true ≠ 0 ∧
      (searchAction QueryOpt.missing true).2 = false) ∧
      mainExitCode (QueryOpt.one ['a']) false ≠ 0 :=
  ⟨(exit_semantics QueryOpt.missing true).1 (by decide),
    (exit_semantics (QueryOpt.one ['a']) false).2 rfl⟩

/-! ## Page lifecycle per visit (src/cli.ts lines 115-170 and 185-220)

Each visit runs a straight-line sequence of awaited browser calls, any of
which may throw; a thrown error propagates out of the function at that
point (there is no try/finally).  We record the page-lifecycle events a
visit emits, with a flag per fallible step saying whether it succeeds. -/

/-- Page lifecycle events emitted by one visit. -/
inductive PageEvent
  | pageOpened
  | pageClosed
deriving DecidableEq

/-- Which awaited steps of `visitLink` succeed:
`interceptRequest` (stealth scripts + request interception), `page.goto`,
`page.addScriptTag`, `page.evaluate`. -/
structure VisitEnv where
  interceptOk : Bool
  gotoOk : Bool
  scriptOk : Bool
  evalOk : Bool
deriving DecidableEq

/-- Embedding of `visitLink`: opens a page, runs the awaited steps in
order, and closes the page only on the all-success path (the single
`await page.close()` before the return; an earlier throw skips it).
Returns the emitted events and whether the visit fulfilled. -/
def visitLinkPageEvents (env : VisitEnv) : List PageEvent × Bool :=
  let opened := [PageEvent.pageOpened]
  if !env.interceptOk then (opened, false)
  else if !env.gotoOk then (opened, false)
  else if !env.scriptOk then (opened, false)
  else if !env.evalOk then (opened, false)
  else (opened ++ [PageEvent.pageClosed], true)

/-- Which awaited steps of the search visit in `search` succeed:
`interceptRequest`, `page.goto`, `page.evaluate`. -/
structure SearchVisitEnv where
  interceptOk : Bool
  gotoOk : Bool
  evalOk : Bool
deriving DecidableEq

/-- Embedding of the search-page portion of `search`: opens a page, runs
the awaited steps in order, and never closes the page — no
`page.close()` call appears anywhere in `search`, on any path. -/
def searchPageEvents (env : SearchVisitEnv) : List PageEvent × Bool :=
  let opened := [PageEvent.pageOpened]
  if !env.interceptOk then (opened, false)
  else if !env.gotoOk then (opened, false)
  else if !env.evalOk then (opened, false)
  else (opened, true)

/-- C2 counterexample: the search visit closes its page zero times even
when every step succeeds, and a link visit whose navigation throws closes
its page zero times — both contradict "closed exactly once per visit on
both paths". -/
theorem page_close_cex :
    (searchPageEvents ⟨true, true, true⟩).1.count PageEvent.pageClosed = 0 ∧
      (visitLinkPageEvents ⟨true, false, true, true⟩).1.count PageEvent.pageClosed = 0 := by
  decide

/-- C2 (amended): every visit opens exactly one page and closes it at most
once — never twice; a link visit closes its page exactly once on the
all-success path but leaves it open when any step throws, and a search
visit never closes its page on any path. -/
theorem page_close_per_visit (env : VisitEnv) (senv : SearchVisitEnv) :
    (visitLinkPageEvents env).1.count PageEvent.pageOpened = 1 ∧
      (visitLinkPageEvents env).1.count PageEvent.pageClosed =
        (if env.interceptOk && env.gotoOk && env.scriptOk && env.evalOk
          then 1 else 0) ∧
      (searchPageEvents senv).1.count PageEvent.pageOpened = 1 ∧
      (searchPageEvents senv).1.count PageEvent.pageClosed = 0 := by
  obtain ⟨i, g, s, e⟩ := env
  obtain ⟨si, sg, se⟩ := senv
  cases i <;> cases g <;> cases s <;> cases e <;> cases si <;> cases sg <;>
    cases se <;> decide

/-! ## Settled visit outcomes and aggregation (src/cli.ts lines 157-169)

`search` runs `Promise.allSettled(links.map(item => queue.add(() =>
visitLink(context, item.url))))` and then emits
`finalResults.map(item => item.status === "fulfilled" ? item.value : null)
.filter(v => v?.content)`. -/

/-- The `SearchResult` record of src/cli.ts: `content` is optional
(`undefined` for extracted candidate links, a string — possibly empty —
for visit results). -/
structure SearchResult where
  title : List Char
  url : List Char
  content : Option (List Char) := none
deriving DecidableEq

/-- One settled promise of the `Promise.allSettled` array. -/
inductive Settlement
  | fulfilled (v : SearchResult)
  | rejected
deriving DecidableEq

/-- `item.status === "fulfilled" ? item.value : null`. -/
def settledValueOrNull : Settlement → Option SearchResult
  | .fulfilled v => some v
  | .rejected => none

/-- JavaScript truthiness of `v?.content`: `null` entries and entries
whose content is absent or the empty string are falsy. -/
def keepResult : Option SearchResult → Bool
  | some v =>
    match v.content with
    | some c => !c.isEmpty
    | none => false
  | none => false

/-- Embedding of the final aggregation in `search`:
`finalResults.map(...).filter(v => v?.content)`. -/
def aggregateResults (settled : List Settlement) : List (Option SearchResult) :=
  (settled.map settledValueOrNull).filter keepResult

/-- C4: the final results sequence of a query keeps only fulfilled visits
with non-empty content — a `null` (rejected) entry never appears, and a
visit result whose content is empty or absent never appears. -/
theorem aggregate_no_empty_content (settled : List Settlement) :
    (aggregateResults settled).all keepResult = true ∧
      none ∉ aggregateResults settled ∧
      ∀ r : SearchResult, (r.content = some [] ∨ r.content = none) →
        some r ∉ aggregateResults settled := by
  refine ⟨List.all_eq_true.mpr fun x hx => List.of_mem_filter hx, ?_, ?_⟩
  · intro hmem
    have := List.of_mem_filter hmem
    simp [keepResult] at this
  · intro r hr hmem
    have hk := List.of_mem_filter hmem
    cases hr with
    | inl h => simp [keepResult, h, List.isEmpty] at hk
    | inr h => simp [keepResult, h] at hk

/-- C4 witness: an empty-content visit result is excluded from the
aggregation of a concrete settled list containing it. -/
theorem aggregate_no_empty_content_witness :
    some { title := ['t'], url := ['u'], content := some [] } ∉
      aggregateResults [Settlement.rejected,
        Settlement.fulfilled { title := ['t'], url := ['u'], content := some [] }] :=
  (aggregate_no_empty_content _).2.2 _ (Or.inl rfl)

/-! ## Outcome indexing by submission order (src/cli.ts lines 157-168)

`Promise.allSettled` fills one slot per submitted promise, at the
submission index, whatever order the visits complete in.  We model the
settlement array as slots written by completion events in an arbitrary
completion order. -/

/-- Slot-writing model of `Promise.allSettled`: starting from `n`
unfilled slots, each completion event for submission index `i` stores
task `i`'s settlement at slot `i`; `order` is the completion order. -/
def settleSlots (n : Nat) (order : List Nat) (f : Nat → Settlement) :
    List (Option Settlement) :=
  order.foldl (fun acc i => acc.set i (some (f i))) (List.replicate n none)

theorem settleSlots_foldl_get (f : Nat → Settlement) (i : Nat) :
    ∀ (order : List Nat) (acc : List (Option Settlement)),
      i < acc.length →
      (i ∈ order ∨ acc[i]? = some (some (f i))) →
      (order.foldl (fun a j => a.set j (some (f j))) acc)[i]? = some (some (f i))
  | [], acc, _, hmem => by
    cases hmem with
    | inl h => simp at h
    | inr h => simpa using h
  | j :: rest, acc, hlen, hmem => by
    have hlen' : i < (acc.set j (some (f j))).length := by
      simpa [List.length_set] using hlen
    apply settleSlots_foldl_get f i rest (acc.set j (some (f j))) hlen'
    by_cases hij : i = j
    · subst hij
      exact Or.inr (List.getElem?_set_eq_of_lt _ hlen)
    · cases hmem with
      | inl h =>
        cases List.mem_cons.mp h with
        | inl h0 => exact absurd h0 hij
        | inr h0 => exact Or.inl h0
      | inr h =>
        refine Or.inr ?_
        rw [List.getElem?_set_ne (fun hji => hij hji.symm)]
        exact h

/-- C5: the settled-outcome array is indexed by submission order — slot
`i` holds candidate link `i`'s settlement for every completion order that
settles it — and the aggregated results are a sublist of the
submission-ordered value array, so surviving entries keep the relative
order of the candidate-link sequence. -/
theorem outcome_order (n : Nat) (order : List Nat) (f : Nat → Settlement)
    (i : Nat) (hn : i < n) (hmem : i ∈ order) :
    (settleSlots n order f)[i]? = some (some (f i)) ∧
      ∀ settled : List Settlement,
        (aggregateResults settled).Sublist (settled.map settledValueOrNull) := by
  constructor
  · apply settleSlots_foldl_get f i order (List.replicate n none)
    · simpa using hn
    · exact Or.inl hmem
  · intro settled
    exact List.filter_sublist _

/-- C5 witness: with three submissions completing in order 2, 0, 1,
slot 1 holds submission 1's settlement. -/
theorem outcome_order_witness :
    (settleSlots 3 [2, 0, 1] fun _ => Settlement.rejected)[1]? =
      some (some Settlement.rejected) :=
  (outcome_order 3 [2, 0, 1] (fun _ => Settlement.rejected) 1 (by decide)
    (by decide)).1

/-! ## Per-link failure isolation (src/cli.ts lines 157-159)

Each queued `visitLink` call either fulfills with a result or rejects;
`Promise.allSettled` converts each outcome to a settlement and itself
always fulfills. -/

/-- How `Promise.allSettled` settles one task: a thrown error becomes a
`rejected` settlement, never a propagated exception. -/
def settleTask : Except Unit SearchResult → Settlement
  | .ok v => .fulfilled v
  | .error _ => .rejected

/-- The settlement array for a list of queued visit tasks. -/
def runAllSettled (tasks : List (Except Unit SearchResult)) : List Settlement :=
  tasks.map settleTask

/-- The tail of `search` after the visits: `Promise.allSettled` never
rejects, so the aggregation always completes normally. -/
def searchFinalize (tasks : List (Except Unit SearchResult)) :
    Except Unit (List (Option SearchResult)) :=
  Except.ok (aggregateResults (runAllSettled tasks))

/-- C7: a failed link visit is isolated: the settlement of every sibling
task is unchanged by the failing task (settlements are pointwise), the
failed task contributes no entry to the final aggregation (aggregating
with the failure equals aggregating without it), and the pipeline still
completes normally (no exception crosses the queue boundary). -/
theorem failure_isolation (pre post : List (Except Unit SearchResult))
    (t : Except Unit SearchResult) :
    runAllSettled (pre ++ [t] ++ post) =
        runAllSettled pre ++ [settleTask t] ++ runAllSettled post ∧
      aggregateResults (runAllSettled (pre ++ [Except.error ()] ++ post)) =
        aggregateResults (runAllSettled (pre ++ post)) ∧
      (searchFinalize (pre ++ [Except.error ()] ++ post)).isOk = true := by
  refine ⟨by simp [runAllSettled], ?_, rfl⟩
  simp only [runAllSettled, aggregateResults, List.map_append, List.filter_append]
  simp [settleTask, settledValueOrNull, keepResult]

/-! ## Candidate-link extraction (src/cli.ts lines 130-150)

The page evaluation iterates the `.g` result containers in document
order; for each it takes `titleEl?.textContent || ""` from the first
`h3` and `urlEl?.getAttribute("href") || ""` from the first `a`, skips
the container when either is empty (`if (!item.title || !item.url)
return`), and pushes the entry otherwise. -/

/-- One `.g` result container, reduced to the fields the extractor
reads: the first `h3`'s text (`none` when no `h3` exists) and the first
`a`'s `href` attribute (`none` when absent). -/
structure DomContainer where
  h3Text : Option (List Char)
  aHref : Option (List Char)
deriving DecidableEq

/-- What one container contributes: `none` when the title or url is
empty (the container is silently skipped), otherwise the candidate
link. -/
def extractEntry (el : DomContainer) : Option SearchResult :=
  let title := el.h3Text.getD []
  let url := el.aHref.getD []
  if title.isEmpty || url.isEmpty then none
  else some { title := title, url := url, content := none }

/-- Embedding of the `elements.forEach` / `links.push` loop of the search
page evaluation. -/
def extractLinks (els : List DomContainer) : List SearchResult :=
  els.foldl (fun links el =>
    match extractEntry el with
    | none => links
    | some item => links ++ [item]) []

theorem extractLinks_foldl (els : List DomContainer) :
    ∀ acc : List SearchResult,
      (els.foldl (fun links el =>
        match extractEntry el with
        | none => links
        | some item => links ++ [item]) acc) = acc ++ els.filterMap extractEntry := by
  induction els with
  | nil => intro acc; simp
  | cons el rest ih =>
    intro acc
    cases h : extractEntry el with
    | none => simp [List.foldl_cons, h, ih]
    | some item => simp [List.foldl_cons, h, ih]

/-- C6: for every DOM shape, no extracted candidate link has an empty
title or an empty url — a container whose first heading has no text or
whose first link has no href is skipped — and the extracted links are
exactly the surviving containers in document order. -/
theorem extract_no_empty_fields (els : List DomContainer) :
    ((extractLinks els).all fun it => !it.title.isEmpty && !it.url.isEmpty) = true ∧
      extractLinks els = els.filterMap extractEntry := by
  have heq : extractLinks els = els.filterMap extractEntry := by
    simpa using extractLinks_foldl els []
  refine ⟨List.all_eq_true.mpr fun it hit => ?_, heq⟩
  rw [heq] at hit
  obtain ⟨el, _, hel⟩ := List.mem_filterMap.mp hit
  by_cases hguard : ((el.h3Text.getD []).isEmpty || (el.aHref.getD []).isEmpty) = true
  · simp [extractEntry, hguard] at hel
  · simp only [extractEntry, hguard, if_false] at hel
    obtain ⟨ht, hu⟩ := Bool.or_eq_false_iff.mp (Bool.not_eq_true _ ▸ hguard)
    cases hel
    simp [ht, hu]

/-! ## Browser session release (src/cli.ts lines 36-41 and 75-91)

`await using browser = await launchBrowser(...)` disposes the browser
(calling `context.close()`) exactly once when the enclosing scope exits,
whether the body returns or throws.  The body awaits
`Promise.all(queries.map(query => search(...)))`: `Promise.all` settles
when the last pipeline fulfills, but rejects as soon as the first
pipeline rejects, without waiting for the others. -/

/-- One query pipeline of the run: whether its `search` call fulfills,
the time at which it rejects when it fails, and the settle times of its
queued link visits (its `Promise.allSettled` fulfills when the last one
settles). -/
structure PipelineSpec where
  searchOk : Bool
  searchFailTime : Nat
  taskTimes : List Nat
deriving DecidableEq

/-- When one pipeline settles: a fulfilled pipeline settles once its last
queued visit settles; a rejected pipeline rejects at its failure time. -/
def pipelineSettleTime (p : PipelineSpec) : Nat :=
  if p.searchOk then p.taskTimes.foldr max 0 else p.searchFailTime

/-- When `await Promise.all(queries.map(search))` resumes: at the last
settle time when every pipeline fulfills, and at the earliest rejection
time otherwise. -/
def promiseAllSettleTime (ps : List PipelineSpec) : Nat :=
  match ps.filter fun p => !p.searchOk with
  | [] => (ps.map pipelineSettleTime).foldr max 0
  | q :: qs => (qs.map pipelineSettleTime).foldr min (pipelineSettleTime q)

/-- The browser is disposed by the `await using` scope exit, immediately
after the `Promise.all` await resumes (normally or by throwing). -/
def browserReleaseTime (ps : List PipelineSpec) : Nat :=
  promiseAllSettleTime ps

/-- Run-level events of the `await using` scope. -/
inductive RunEvent
  | browserReleased
deriving DecidableEq

/-- Embedding of `await using` disposal semantics: the async disposer
(`context.close()`) runs exactly once on scope exit, on the normal path
and on the throwing path alike. -/
def awaitUsing (body : Except RunError Unit) : List RunEvent × Except RunError Unit :=
  match body with
  | .ok v => ([.browserReleased], .ok v)
  | .error e => ([.browserReleased], .error e)

theorem mem_le_foldr_max (l : List Nat) (x : Nat) (hx : x ∈ l) :
    x ≤ l.foldr max 0 := by
  induction l with
  | nil => cases hx
  | cons y ys ih =>
    cases List.mem_cons.mp hx with
    | inl h => subst h; exact le_max_left _ _
    | inr h => exact le_trans (ih h) (le_max_right _ _)

/-- C8 counterexample: with one pipeline rejecting at time 0 and a
sibling pipeline whose queued visit settles at time 5, `Promise.all`
rejects at time 0 and the browser is released before the sibling has
settled — the claim's "only after every query pipeline and every queued
visit task has settled" fails. -/
theorem session_release_cex :
    PipelineSpec.mk true 0 [5] ∈
        [PipelineSpec.mk false 0 [], PipelineSpec.mk true 0 [5]] ∧
      ¬ pipelineSettleTime (PipelineSpec.mk true 0 [5]) ≤
        browserReleaseTime [PipelineSpec.mk false 0 [], PipelineSpec.mk true 0 [5]] := by
  decide

/-- C8 (amended): the session is released exactly once per run, on the
normal and the throwing exit path alike; and when every query pipeline
fulfills, release happens only after every pipeline and every queued
visit task has settled.  When some pipeline rejects, release can precede
the settlement of sibling pipelines (see the counterexample). -/
theorem session_release (ps : List PipelineSpec) (body : Except RunError Unit)
    (hok : ∀ p ∈ ps, p.searchOk = true) :
    (∀ p ∈ ps, pipelineSettleTime p ≤ browserReleaseTime ps ∧
        ∀ t ∈ p.taskTimes, t ≤ browserReleaseTime ps) ∧
      (awaitUsing body).1.count RunEvent.browserReleased = 1 := by
  constructor
  · intro p hp
    have hfilter : (ps.filter fun p => !p.searchOk) = [] := by
      rw [List.filter_eq_nil_iff]
      intro q hq
      simp [hok q hq]
    have hrel : browserReleaseTime ps = (ps.map pipelineSettleTime).foldr max 0 := by
      simp [browserReleaseTime, promiseAllSettleTime, hfilter]
    have hple : pipelineSettleTime p ≤ browserReleaseTime ps := by
      rw [hrel]
      exact mem_le_foldr_max _ _ (List.mem_map_of_mem _ hp)
    refine ⟨hple, fun t ht => le_trans ?_ hple⟩
    have : pipelineSettleTime p = p.taskTimes.foldr max 0 := by
      simp [pipelineSettleTime, hok p hp]
    rw [this]
    exact mem_le_foldr_max _ _ ht
  · cases body <;> rfl

/-- C8 witness: the amended release theorem applied to a run with one
all-fulfilling pipeline whose visits settle at times 2 and 5. -/
theorem session_release_witness :
    pipelineSettleTime (PipelineSpec.mk true 0 [2, 5]) ≤
        browserReleaseTime [PipelineSpec.mk true 0 [2, 5]] ∧
      (awaitUsing (Except.ok ())).1.count RunEvent.browserReleased = 1 :=
  ⟨((session_release [PipelineSpec.mk true 0 [2, 5]] (Except.ok ())
      (by decide)).1 _ (List.mem_singleton.mpr rfl)).1,
    (session_release [PipelineSpec.mk true 0 [2, 5]] (Except.ok ())
      (by decide)).2⟩

end LocalWebSearch
